import Mathlib

/-!
Shallow embedding of the betting engine of `engine/poker_game.py` and the
validation helpers of `bot_api.py` (repository budopod1/poker).

Participants are identified by natural numbers standing for the Python string
ids; the Python dictionaries `player_chips` and `player_bets` become total
functions `Nat → Int` (Python's `dict.get(p, 0)` default is the function's
value off the id list).  The Python `set` `players_acted` becomes a
`Finset Nat` (the source only inserts, clears and takes its length).  Cards,
the deck and hand evaluation are external services the claims do not touch,
so they are not modelled; `round_name` is kept as the source's string.
All monetary quantities are `Int`, matching Python's unbounded signed
integers, so that non-negativity is a theorem and not a typing artefact.
-/

/-- The `PlayerAction` enum of `engine/game_state.py` as used by
`poker_game.py` and `bot_api.py`. -/
inductive PlayerAction where
  | FOLD
  | CHECK
  | CALL
  | RAISE
  | ALL_IN
deriving DecidableEq, Repr

/-- Pointwise update of a dictionary-as-function, modelling
`d[p] = v` on a Python dict read through `d.get(q, default)`. -/
def updFn (f : Nat → Int) (p : Nat) (v : Int) : Nat → Int :=
  fun q => if q = p then v else f q

/-- The mutable state of a `PokerGame` instance (`poker_game.py`, `__init__`),
restricted to the fields the betting engine reads or writes.  `player_ids`
is the fixed seat list; `current_player_index` is the turn cursor created by
`_start_betting_round`. -/
structure PokerGame where
  player_ids : List Nat
  small_blind : Int
  big_blind : Int
  player_chips : Nat → Int
  player_bets : Nat → Int
  active_players : List Nat
  folded_players : List Nat
  pot : Int
  current_bet : Int
  dealer_button : Nat
  players_acted : Finset Nat
  current_player_index : Nat
  round_name : String

/-- `reset_hand` (poker_game.py lines 84-95), restricted to the modelled
fields: the deck and hole-card resets touch only unmodelled card state. -/
def reset_hand (g : PokerGame) : PokerGame :=
  { g with
    active_players := g.player_ids.filter (fun p => decide (0 < g.player_chips p))
    player_bets := fun _ => 0
    folded_players := []
    pot := 0
    current_bet := g.big_blind
    round_name := "preflop" }

/-- `post_blinds` (poker_game.py lines 103-127).  The big-blind amount is
computed from the chips dictionary after the small blind was deducted,
exactly as in the source (same mutable dict). -/
def post_blinds (g : PokerGame) : PokerGame :=
  if g.active_players.length < 2 then g
  else
    let n := g.active_players.length
    let sbp := g.active_players.getD ((g.dealer_button + 1) % n) 0
    let bbp := g.active_players.getD ((g.dealer_button + 2) % n) 0
    let sbAmt := min g.small_blind (g.player_chips sbp)
    let g1 : PokerGame :=
      { g with
        player_bets := updFn g.player_bets sbp sbAmt
        player_chips := updFn g.player_chips sbp (g.player_chips sbp - sbAmt)
        pot := g.pot + sbAmt }
    let bbAmt := min g.big_blind (g1.player_chips bbp)
    { g1 with
      player_bets := updFn g1.player_bets bbp bbAmt
      player_chips := updFn g1.player_chips bbp (g1.player_chips bbp - bbAmt)
      pot := g1.pot + bbAmt }

/-- `_start_betting_round` (poker_game.py lines 149-155).  The Python `%`
raises on an empty active list; here `Nat` `% 0` is the identity, a state
the modelled claims never exercise. -/
def start_betting_round (g : PokerGame) : PokerGame :=
  let g1 : PokerGame :=
    { g with
      players_acted := ∅
      current_player_index := (g.dealer_button + 1) % g.active_players.length }
  if g1.round_name ≠ "preflop" then
    { g1 with current_bet := 0, player_bets := fun _ => 0 }
  else g1

/-- `get_current_player` (poker_game.py lines 157-161); the Python empty
string for "no active players" becomes `none`. -/
def get_current_player (g : PokerGame) : Option Nat :=
  if g.active_players.isEmpty then none
  else some (g.active_players.getD
    (g.current_player_index % g.active_players.length) 0)

/-- `advance_to_next_player` (poker_game.py lines 268-272). -/
def advance_to_next_player (g : PokerGame) : PokerGame :=
  if g.active_players.isEmpty then g
  else { g with
    current_player_index := (g.current_player_index + 1) % g.active_players.length }

/-- `is_valid_action` (poker_game.py lines 183-204): the validation that
`process_action` consults.  It checks membership in `active_players` and
absence from `folded_players`, then the per-action condition; it never
consults the turn cursor. -/
def is_valid_action (g : PokerGame) (player : Nat) (action : PlayerAction)
    (amount : Int) : Bool :=
  if player ∉ g.active_players ∨ player ∈ g.folded_players then false
  else
    let player_bet := g.player_bets player
    let to_call := g.current_bet - player_bet
    let available_chips := g.player_chips player
    match action with
    | .FOLD => true
    | .CHECK => decide (to_call = 0)
    | .CALL => decide (0 < to_call)
    | .RAISE => decide (g.current_bet + g.big_blind ≤ amount) &&
        decide (amount - player_bet ≤ available_chips)
    | .ALL_IN => decide (0 < available_chips)

/-- The mutation part of `process_action` (poker_game.py lines 213-266),
applied after the validation gate replaced an invalid request by
`(FOLD, 0)`.  The source adds the actor to `players_acted` first; the
RAISE and covering ALL_IN branches then `clear()` and re-`add`, which nets
to the singleton set. -/
def apply_action (g : PokerGame) (player : Nat) (action : PlayerAction)
    (amount : Int) : PokerGame :=
  let g1 : PokerGame := { g with players_acted := insert player g.players_acted }
  let player_bet := g1.player_bets player
  let to_call := g1.current_bet - player_bet
  match action with
  | .FOLD =>
    { g1 with
      folded_players := g1.folded_players ++ [player]
      active_players := g1.active_players.erase player }
  | .CHECK => g1
  | .CALL =>
    let call_amount := min to_call (g1.player_chips player)
    { g1 with
      player_bets := updFn g1.player_bets player (player_bet + call_amount)
      player_chips := updFn g1.player_chips player (g1.player_chips player - call_amount)
      pot := g1.pot + call_amount }
  | .RAISE =>
    let raise_amount := amount - player_bet
    if g1.player_chips player ≤ raise_amount then
      let ra := g1.player_chips player
      { g1 with
        player_bets := updFn g1.player_bets player (player_bet + ra)
        pot := g1.pot + ra
        player_chips := updFn g1.player_chips player 0
        current_bet := max g1.current_bet (player_bet + ra) }
    else
      { g1 with
        player_bets := updFn g1.player_bets player (player_bet + raise_amount)
        player_chips := updFn g1.player_chips player (g1.player_chips player - raise_amount)
        pot := g1.pot + raise_amount
        current_bet := player_bet + raise_amount
        players_acted := {player} }
  | .ALL_IN =>
    let all_in_amount := g1.player_chips player
    let new_bet := player_bet + all_in_amount
    let g2 : PokerGame :=
      { g1 with
        player_bets := updFn g1.player_bets player new_bet
        player_chips := updFn g1.player_chips player 0
        pot := g1.pot + all_in_amount }
    if g2.current_bet < new_bet then
      { g2 with current_bet := new_bet, players_acted := {player} }
    else g2

/-- `process_action` (poker_game.py lines 206-266): a request failing
`is_valid_action` is replaced by `FOLD` with amount 0 before application. -/
def process_action (g : PokerGame) (player : Nat) (action : PlayerAction)
    (amount : Int) : PokerGame :=
  if is_valid_action g player action amount then
    apply_action g player action amount
  else
    apply_action g player PlayerAction.FOLD 0

/-- `is_betting_round_complete` (poker_game.py lines 274-289).  Note the
source compares the cardinality of `players_acted` (which may still contain
folded participants) against the length of `active_players`. -/
def is_betting_round_complete (g : PokerGame) : Bool :=
  if g.active_players.length ≤ 1 then true
  else if g.players_acted.card < g.active_players.length then false
  else g.active_players.all (fun p =>
    !(decide (0 < g.player_chips p) && decide (g.player_bets p ≠ g.current_bet)))

/-- `_distribute_pot` (poker_game.py lines 341-353).  Python `//` is floor
division, i.e. `Int.fdiv`. -/
def distribute_pot (g : PokerGame) (winners : List Nat) : PokerGame :=
  if winners.isEmpty then g
  else
    let winnings := Int.fdiv g.pot winners.length
    { g with
      player_chips := winners.foldl
        (fun acc w => updFn acc w (acc w + winnings)) g.player_chips
      pot := 0 }

/-- `validate_action` (bot_api.py lines 204-242), the bot-facing validator.
The `GameState` snapshot it receives has `current_player` equal to the
engine's `get_current_player`, so it is modelled directly on the engine
state. -/
def validate_action (g : PokerGame) (action : PlayerAction) (amount : Int)
    (player_name : Nat) : Bool :=
  if player_name ∉ g.active_players then false
  else if get_current_player g ≠ some player_name then false
  else
    let player_chips := g.player_chips player_name
    let player_bet := g.player_bets player_name
    let to_call := g.current_bet - player_bet
    match action with
    | .FOLD => true
    | .CHECK => decide (to_call = 0)
    | .CALL => decide (0 < to_call) && decide (to_call ≤ player_chips)
    | .RAISE => decide (g.current_bet + g.big_blind ≤ amount) &&
        decide (amount - player_bet ≤ player_chips) &&
        decide (g.current_bet < amount)
    | .ALL_IN => decide (0 < player_chips)

/-- Sum of a dictionary-as-function over a list of ids. -/
def sumOver (l : List Nat) (f : Nat → Int) : Int := (l.map f).sum

/-- Total chips held in stacks by the original participants. -/
def sumChips (g : PokerGame) : Int := sumOver g.player_ids g.player_chips

/-- Total `bet_this_round` over the original participants. -/
def sumBets (g : PokerGame) : Int := sumOver g.player_ids g.player_bets

/-- The quantity actually conserved by the engine: the pot plus all stacks. -/
def potChips (g : PokerGame) : Int := g.pot + sumChips g

/-- The quantity named by the specification's conservation sentence:
pot plus all stacks plus all bets-this-round. -/
def specQty (g : PokerGame) : Int := g.pot + sumChips g + sumBets g

/-- One engine step of the betting portion of a hand: every operation the
hand lifecycle performs on the modelled state before pot distribution. -/
inductive HandStep : PokerGame → PokerGame → Prop where
  | reset (g : PokerGame) : HandStep g (reset_hand g)
  | blinds (g : PokerGame) : HandStep g (post_blinds g)
  | startRound (g : PokerGame) : HandStep g (start_betting_round g)
  | act (g : PokerGame) (p : Nat) (a : PlayerAction) (amt : Int) :
      HandStep g (process_action g p a amt)
  | advanceP (g : PokerGame) : HandStep g (advance_to_next_player g)

/-- Steps occurring strictly between blind posting and pot distribution
(no `reset_hand`, which zeroes the pot at hand start). -/
inductive BetStep : PokerGame → PokerGame → Prop where
  | blinds (g : PokerGame) : BetStep g (post_blinds g)
  | startRound (g : PokerGame) : BetStep g (start_betting_round g)
  | act (g : PokerGame) (p : Nat) (a : PlayerAction) (amt : Int) :
      BetStep g (process_action g p a amt)
  | advanceP (g : PokerGame) : BetStep g (advance_to_next_player g)

/-! ### Pointwise and summation lemmas for dictionary updates -/

theorem updFn_self (f : Nat → Int) (p : Nat) (v : Int) : updFn f p v p = v := by
  simp [updFn]

theorem updFn_other (f : Nat → Int) (p : Nat) (v : Int) (q : Nat) (h : q ≠ p) :
    updFn f p v q = f q := by
  simp [updFn, h]

theorem sumOver_updFn_not_mem (l : List Nat) (f : Nat → Int) (p : Nat) (v : Int)
    (hp : p ∉ l) : sumOver l (updFn f p v) = sumOver l f := by
  unfold sumOver
  have : l.map (updFn f p v) = l.map f := by
    apply List.map_congr_left
    intro x hx
    exact updFn_other f p v x (fun h => hp (h ▸ hx))
  rw [this]

theorem sumOver_updFn (l : List Nat) (f : Nat → Int) (p : Nat) (v : Int)
    (hnd : l.Nodup) (hp : p ∈ l) :
    sumOver l (updFn f p v) = sumOver l f - f p + v := by
  induction l with
  | nil => cases hp
  | cons a t ih =>
    have hat : a ∉ t := (List.nodup_cons.mp hnd).1
    have hndt : t.Nodup := (List.nodup_cons.mp hnd).2
    rcases List.mem_cons.mp hp with rfl | hmem
    · have h1 : sumOver t (updFn f p v) = sumOver t f :=
        sumOver_updFn_not_mem t f p v hat
      simp only [sumOver, List.map_cons, List.sum_cons] at *
      rw [updFn_self, h1]
      ring
    · have hpa : p ≠ a := fun h => hat (h ▸ hmem)
      have h1 := ih hndt hmem
      simp only [sumOver, List.map_cons, List.sum_cons] at *
      rw [updFn_other f p v a (fun h => hpa h.symm), h1]
      ring

theorem foldl_payout_eq (w : Int) (ws : List Nat) (hnd : ws.Nodup) :
    ∀ (f : Nat → Int) (q : Nat),
      (ws.foldl (fun acc x => updFn acc x (acc x + w)) f) q =
        if q ∈ ws then f q + w else f q := by
  induction ws with
  | nil => intro f q; simp
  | cons a t ih =>
    intro f q
    have hat : a ∉ t := (List.nodup_cons.mp hnd).1
    have hndt : t.Nodup := (List.nodup_cons.mp hnd).2
    simp only [List.foldl_cons]
    rw [ih hndt]
    by_cases hq : q ∈ t
    · have hqa : q ≠ a := fun h => hat (h ▸ hq)
      simp [hq, hqa, updFn_other, List.mem_cons]
    · by_cases hqa : q = a
      · subst hqa
        simp [hq, updFn_self, List.mem_cons]
      · simp [hq, hqa, updFn_other _ _ _ _ hqa, List.mem_cons]

theorem foldl_payout_nonneg (w : Int) (hw : 0 ≤ w) (ws : List Nat) :
    ∀ (f : Nat → Int), (∀ q, 0 ≤ f q) →
      ∀ q, 0 ≤ (ws.foldl (fun acc x => updFn acc x (acc x + w)) f) q := by
  induction ws with
  | nil => intro f h q; exact h q
  | cons a t ih =>
    intro f h q
    simp only [List.foldl_cons]
    apply ih
    intro r
    unfold updFn
    split
    · have := h a; linarith
    · exact h r

theorem sumOver_foldl_add (ids : List Nat) (hnd : ids.Nodup) (w : Int)
    (ws : List Nat) :
    (∀ x ∈ ws, x ∈ ids) → ∀ f : Nat → Int,
      sumOver ids (ws.foldl (fun acc x => updFn acc x (acc x + w)) f) =
        sumOver ids f + ws.length * w := by
  induction ws with
  | nil => intro _ f; simp
  | cons a t ih =>
    intro hsub f
    have ha : a ∈ ids := hsub a (List.mem_cons_self a t)
    have hsubt : ∀ x ∈ t, x ∈ ids := fun x hx => hsub x (List.mem_cons_of_mem a hx)
    simp only [List.foldl_cons]
    rw [ih hsubt, sumOver_updFn ids f a (f a + w) hnd ha]
    simp only [List.length_cons]
    push_cast
    ring

/-! ### Facts about validation and the conserved quantity -/

theorem mem_active_of_valid (g : PokerGame) (p : Nat) (a : PlayerAction) (amt : Int)
    (h : is_valid_action g p a amt = true) :
    p ∈ g.active_players ∧ p ∉ g.folded_players := by
  by_cases hc : p ∉ g.active_players ∨ p ∈ g.folded_players
  · unfold is_valid_action at h
    rw [if_pos hc] at h
    cases h
  · push_neg at hc
    exact ⟨hc.1, hc.2⟩

theorem potChips_apply_fold (g : PokerGame) (p : Nat) (amt : Int) :
    potChips (apply_action g p PlayerAction.FOLD amt) = potChips g := rfl

theorem potChips_apply_action (g : PokerGame) (p : Nat) (a : PlayerAction)
    (amt : Int) (hnd : g.player_ids.Nodup) (hp : p ∈ g.player_ids) :
    potChips (apply_action g p a amt) = potChips g := by
  cases a with
  | FOLD => rfl
  | CHECK => rfl
  | CALL =>
    simp only [apply_action, potChips, sumChips]
    rw [sumOver_updFn _ _ _ _ hnd hp]
    ring
  | RAISE =>
    simp only [apply_action, potChips, sumChips]
    split
    · rw [sumOver_updFn _ _ _ _ hnd hp]
      ring
    · rw [sumOver_updFn _ _ _ _ hnd hp]
      ring
  | ALL_IN =>
    simp only [apply_action, potChips, sumChips]
    split
    · rw [sumOver_updFn _ _ _ _ hnd hp]
      ring
    · rw [sumOver_updFn _ _ _ _ hnd hp]
      ring

theorem potChips_process_action (g : PokerGame) (p : Nat) (a : PlayerAction)
    (amt : Int) (hnd : g.player_ids.Nodup)
    (hsub : ∀ x ∈ g.active_players, x ∈ g.player_ids) :
    potChips (process_action g p a amt) = potChips g := by
  unfold process_action
  split
  · next h =>
    exact potChips_apply_action g p a amt hnd
      (hsub p (mem_active_of_valid g p a amt h).1)
  · exact potChips_apply_fold g p 0

theorem potChips_post_blinds (g : PokerGame) (hnd : g.player_ids.Nodup)
    (hsub : ∀ x ∈ g.active_players, x ∈ g.player_ids) :
    potChips (post_blinds g) = potChips g := by
  unfold post_blinds
  split
  · rfl
  · next hge =>
    have hn : 0 < g.active_players.length := by omega
    have hi1 : (g.dealer_button + 1) % g.active_players.length <
        g.active_players.length := Nat.mod_lt _ hn
    have hi2 : (g.dealer_button + 2) % g.active_players.length <
        g.active_players.length := Nat.mod_lt _ hn
    have hsbp : g.active_players.getD
        ((g.dealer_button + 1) % g.active_players.length) 0 ∈ g.active_players := by
      rw [List.getD_eq_getElem _ _ hi1]
      exact List.getElem_mem hi1
    have hbbp : g.active_players.getD
        ((g.dealer_button + 2) % g.active_players.length) 0 ∈ g.active_players := by
      rw [List.getD_eq_getElem _ _ hi2]
      exact List.getElem_mem hi2
    simp only [potChips, sumChips]
    rw [sumOver_updFn _ _ _ _ hnd (hsub _ hbbp), sumOver_updFn _ _ _ _ hnd (hsub _ hsbp)]
    ring

/-! ### Non-negativity of stacks through each operation -/

theorem chips_nonneg_apply_action (g : PokerGame) (p : Nat) (a : PlayerAction)
    (amt : Int) (h0 : ∀ q, 0 ≤ g.player_chips q) :
    ∀ q, 0 ≤ (apply_action g p a amt).player_chips q := by
  intro q
  cases a with
  | FOLD => exact h0 q
  | CHECK => exact h0 q
  | CALL =>
    simp only [apply_action, updFn]
    split
    · have : min (g.current_bet - g.player_bets p) (g.player_chips p) ≤
          g.player_chips p := min_le_right _ _
      linarith
    · exact h0 q
  | RAISE =>
    simp only [apply_action]
    split
    · simp only [updFn]
      split
      · exact le_refl 0
      · exact h0 q
    · next hlt =>
      simp only [updFn]
      split
      · push_neg at hlt
        linarith
      · exact h0 q
  | ALL_IN =>
    simp only [apply_action]
    split
    · simp only [updFn]
      split
      · exact le_refl 0
      · exact h0 q
    · simp only [updFn]
      split
      · exact le_refl 0
      · exact h0 q

theorem chips_nonneg_process_action (g : PokerGame) (p : Nat) (a : PlayerAction)
    (amt : Int) (h0 : ∀ q, 0 ≤ g.player_chips q) :
    ∀ q, 0 ≤ (process_action g p a amt).player_chips q := by
  unfold process_action
  split
  · exact chips_nonneg_apply_action g p a amt h0
  · exact chips_nonneg_apply_action g p PlayerAction.FOLD 0 h0

theorem updFn_sub_min_nonneg (f : Nat → Int) (p : Nat) (b : Int)
    (h0 : ∀ q, 0 ≤ f q) : ∀ q, 0 ≤ (updFn f p (f p - min b (f p))) q := by
  intro q
  unfold updFn
  split
  · have : min b (f p) ≤ f p := min_le_right _ _
    linarith
  · exact h0 q

theorem chips_nonneg_post_blinds (g : PokerGame) (h0 : ∀ q, 0 ≤ g.player_chips q) :
    ∀ q, 0 ≤ (post_blinds g).player_chips q := by
  intro q
  unfold post_blinds
  split
  · exact h0 q
  · exact updFn_sub_min_nonneg _ _ _ (updFn_sub_min_nonneg _ _ _ h0) q

theorem chips_nonneg_distribute (g : PokerGame) (winners : List Nat)
    (h0 : ∀ q, 0 ≤ g.player_chips q) (hpot : 0 ≤ g.pot) :
    ∀ q, 0 ≤ (distribute_pot g winners).player_chips q := by
  unfold distribute_pot
  split
  · exact h0
  · have hw : 0 ≤ Int.fdiv g.pot winners.length :=
      Int.fdiv_nonneg hpot (Int.natCast_nonneg _)
    exact foldl_payout_nonneg _ hw winners _ h0

/-! ### Projection lemmas: fields untouched by each operation -/

theorem post_blinds_ids (g : PokerGame) : (post_blinds g).player_ids = g.player_ids := by
  unfold post_blinds; split <;> rfl

theorem post_blinds_active (g : PokerGame) :
    (post_blinds g).active_players = g.active_players := by
  unfold post_blinds; split <;> rfl

theorem start_betting_round_ids (g : PokerGame) :
    (start_betting_round g).player_ids = g.player_ids := by
  unfold start_betting_round; dsimp only; split <;> rfl

theorem start_betting_round_active (g : PokerGame) :
    (start_betting_round g).active_players = g.active_players := by
  unfold start_betting_round; dsimp only; split <;> rfl

theorem advance_to_next_player_ids (g : PokerGame) :
    (advance_to_next_player g).player_ids = g.player_ids := by
  unfold advance_to_next_player; split <;> rfl

theorem advance_to_next_player_active (g : PokerGame) :
    (advance_to_next_player g).active_players = g.active_players := by
  unfold advance_to_next_player; split <;> rfl

theorem apply_action_ids (g : PokerGame) (p : Nat) (a : PlayerAction) (amt : Int) :
    (apply_action g p a amt).player_ids = g.player_ids := by
  cases a with
  | FOLD => rfl
  | CHECK => rfl
  | CALL => rfl
  | RAISE => simp only [apply_action]; split <;> rfl
  | ALL_IN => simp only [apply_action]; split <;> rfl

theorem apply_action_active_subset (g : PokerGame) (p : Nat) (a : PlayerAction)
    (amt : Int) :
    ∀ x ∈ (apply_action g p a amt).active_players, x ∈ g.active_players := by
  cases a with
  | FOLD =>
    intro x hx
    simp only [apply_action] at hx
    exact List.mem_of_mem_erase hx
  | CHECK => intro x hx; exact hx
  | CALL => intro x hx; exact hx
  | RAISE =>
    intro x hx
    simp only [apply_action] at hx
    revert hx
    split <;> (intro hx; exact hx)
  | ALL_IN =>
    intro x hx
    simp only [apply_action] at hx
    revert hx
    split <;> (intro hx; exact hx)

theorem process_action_ids (g : PokerGame) (p : Nat) (a : PlayerAction) (amt : Int) :
    (process_action g p a amt).player_ids = g.player_ids := by
  unfold process_action; split
  · exact apply_action_ids g p a amt
  · exact apply_action_ids g p PlayerAction.FOLD 0

theorem process_action_active_subset (g : PokerGame) (p : Nat) (a : PlayerAction)
    (amt : Int) :
    ∀ x ∈ (process_action g p a amt).active_players, x ∈ g.active_players := by
  unfold process_action; split
  · exact apply_action_active_subset g p a amt
  · exact apply_action_active_subset g p PlayerAction.FOLD 0

/-! ### Step preservation for the hand relations -/

theorem chips_nonneg_start_betting_round (g : PokerGame)
    (h0 : ∀ q, 0 ≤ g.player_chips q) :
    ∀ q, 0 ≤ (start_betting_round g).player_chips q := by
  intro q; unfold start_betting_round; dsimp only; split <;> exact h0 q

theorem chips_nonneg_step (s s' : PokerGame) (hs : HandStep s s')
    (h0 : ∀ q, 0 ≤ s.player_chips q) : ∀ q, 0 ≤ s'.player_chips q := by
  cases hs with
  | reset => exact h0
  | blinds => exact chips_nonneg_post_blinds s h0
  | startRound => exact chips_nonneg_start_betting_round s h0
  | act p a amt => exact chips_nonneg_process_action s p a amt h0
  | advanceP => intro q; unfold advance_to_next_player; split <;> exact h0 q

theorem potChips_start_betting_round (g : PokerGame) :
    potChips (start_betting_round g) = potChips g := by
  unfold potChips sumChips
  rw [start_betting_round_ids g]
  have hchips : (start_betting_round g).player_chips = g.player_chips := by
    unfold start_betting_round; dsimp only; split <;> rfl
  have hpot : (start_betting_round g).pot = g.pot := by
    unfold start_betting_round; dsimp only; split <;> rfl
  rw [hchips, hpot]

theorem potChips_advance_to_next_player (g : PokerGame) :
    potChips (advance_to_next_player g) = potChips g := by
  unfold potChips sumChips
  rw [advance_to_next_player_ids g]
  have hchips : (advance_to_next_player g).player_chips = g.player_chips := by
    unfold advance_to_next_player; split <;> rfl
  have hpot : (advance_to_next_player g).pot = g.pot := by
    unfold advance_to_next_player; split <;> rfl
  rw [hchips, hpot]

theorem betstep_potChips (s s' : PokerGame) (hs : BetStep s s')
    (hnd : s.player_ids.Nodup) (hsub : ∀ x ∈ s.active_players, x ∈ s.player_ids) :
    potChips s' = potChips s ∧ s'.player_ids = s.player_ids ∧
      (∀ x ∈ s'.active_players, x ∈ s'.player_ids) := by
  cases hs with
  | blinds =>
    refine ⟨potChips_post_blinds s hnd hsub, post_blinds_ids s, ?_⟩
    intro x hx
    rw [post_blinds_active s] at hx
    rw [post_blinds_ids s]
    exact hsub x hx
  | startRound =>
    refine ⟨potChips_start_betting_round s, start_betting_round_ids s, ?_⟩
    intro x hx
    rw [start_betting_round_active s] at hx
    rw [start_betting_round_ids s]
    exact hsub x hx
  | act p a amt =>
    refine ⟨potChips_process_action s p a amt hnd hsub, process_action_ids s p a amt, ?_⟩
    intro x hx
    rw [process_action_ids s p a amt]
    exact hsub x (process_action_active_subset s p a amt x hx)
  | advanceP =>
    refine ⟨potChips_advance_to_next_player s, advance_to_next_player_ids s, ?_⟩
    intro x hx
    rw [advance_to_next_player_active s] at hx
    rw [advance_to_next_player_ids s]
    exact hsub x hx

theorem distribute_sumChips (g : PokerGame) (winners : List Nat)
    (hnd : g.player_ids.Nodup) (hne : winners ≠ [])
    (hsub : ∀ x ∈ winners, x ∈ g.player_ids) :
    sumChips (distribute_pot g winners) =
      potChips g - Int.fmod g.pot winners.length := by
  unfold distribute_pot
  rw [if_neg (by simpa using hne)]
  simp only [sumChips]
  rw [sumOver_foldl_add g.player_ids hnd _ winners hsub g.player_chips]
  have hdm := Int.fdiv_add_fmod g.pot (winners.length : Int)
  simp only [potChips, sumChips]
  linarith

/-! ### Concrete states: the spec's three-participant table -/

/-- Three participants P0, P1, P2 with 1000 chips each, small blind 10,
big blind 20, dealer P0: the configuration of the spec's scenarios. -/
def exInit : PokerGame :=
  { player_ids := [0, 1, 2]
    small_blind := 10
    big_blind := 20
    player_chips := fun _ => 1000
    player_bets := fun _ => 0
    active_players := [0, 1, 2]
    folded_players := []
    pot := 0
    current_bet := 0
    dealer_button := 0
    players_acted := ∅
    current_player_index := 0
    round_name := "preflop" }

/-- The table after `reset_hand` and `post_blinds`: P1 posted 10, P2 posted
20, pot 30, current_bet 20. -/
def exBlind : PokerGame := post_blinds (reset_hand exInit)

/-- The table at the start of preflop betting (turn cursor seeded). -/
def exRound : PokerGame := start_betting_round exBlind

/-- Preflop after P1 (small blind, first to act) folds. -/
def exC3a : PokerGame :=
  advance_to_next_player (process_action exRound 1 PlayerAction.FOLD 0)

/-- ... and P0 then calls the big blind. -/
def exC3b : PokerGame :=
  advance_to_next_player (process_action exC3a 0 PlayerAction.CALL 0)

/-- Preflop limp line, code order: P1 completes the small blind. -/
def exC7a : PokerGame :=
  advance_to_next_player (process_action exRound 1 PlayerAction.CALL 0)

/-- ... P2 (big blind) checks. -/
def exC7b : PokerGame :=
  advance_to_next_player (process_action exC7a 2 PlayerAction.CHECK 0)

/-- ... P0 calls 20, completing the round. -/
def exC7c : PokerGame :=
  advance_to_next_player (process_action exC7b 0 PlayerAction.CALL 0)

/-- A mid-round state: current_bet 20, P0 and P2 already in for 20 with P0
having acted, P1 still at 0 with exactly 40 chips, pot 40. -/
def exRaiseSt : PokerGame :=
  { player_ids := [0, 1, 2]
    small_blind := 10
    big_blind := 20
    player_chips := fun q => if q = 1 then 40 else 980
    player_bets := fun q => if q = 1 then 0 else 20
    active_players := [0, 1, 2]
    folded_players := []
    pot := 40
    current_bet := 20
    dealer_button := 0
    players_acted := {0}
    current_player_index := 1
    round_name := "preflop" }

/-- The fresh table carrying a pot of 100, for the distribution scenario. -/
def exPot100 : PokerGame := { exInit with pot := 100 }

/-! ### Remaining arithmetic helpers -/

theorem sum_map_add_const (l : List Nat) (f : Nat → Int) (c : Int) :
    (l.map (fun x => f x + c)).sum = (l.map f).sum + l.length * c := by
  induction l with
  | nil => simp
  | cons a t ih =>
    simp only [List.map_cons, List.sum_cons, List.length_cons, ih]
    push_cast
    ring

theorem mod_succ_ne (a n : Nat) (hn : 2 ≤ n) : a % n ≠ (a + 1) % n := by
  intro h
  have h1 : 1 % n = 1 := Nat.mod_eq_of_lt (by omega)
  rw [Nat.add_mod, h1] at h
  have hr : a % n < n := Nat.mod_lt _ (by omega)
  by_cases hc : a % n + 1 < n
  · rw [Nat.mod_eq_of_lt hc] at h
    omega
  · have he : a % n + 1 = n := by omega
    rw [he, Nat.mod_self] at h
    omega

theorem getD_ne_of_index_ne (l : List Nat) (hnd : l.Nodup) (i j : Nat)
    (hi : i < l.length) (hj : j < l.length) (hij : i ≠ j) :
    l.getD i 0 ≠ l.getD j 0 := by
  rw [List.getD_eq_getElem _ _ hi, List.getD_eq_getElem _ _ hj]
  intro h
  have hinj := List.nodup_iff_injective_get.mp hnd
  have h2 : l.get ⟨i, hi⟩ = l.get ⟨j, hj⟩ := by
    simpa [List.get_eq_getElem] using h
  have h3 := hinj h2
  rw [Fin.mk.injEq] at h3
  exact hij h3

/-! ### Claim theorems -/

/-- Counterexample to claim C1 as stated: the quantity
`pot + Σ chips + Σ bet_this_round` is NOT invariant.  On the concrete
three-player table it is 3030 after the blinds (the starting stacks sum to
3000), and a single CALL transition moves it to 3050: each wager is added
both to the pot and to `bet_this_round`, so the spec's quantity grows with
every chip wagered. -/
theorem claimed_quantity_not_conserved :
    sumChips exInit = 3000 ∧
    specQty exBlind = 3030 ∧
    specQty (process_action exBlind 0 PlayerAction.CALL 0) = 3050 ∧
    specQty exBlind ≠ sumChips exInit ∧
    specQty (process_action exBlind 0 PlayerAction.CALL 0) ≠ specQty exBlind := by
  decide

/-- C1 (amended): the conserved quantity is `pot + Σ chips` over the
original participants — `bet_this_round` is already counted inside the pot.
It is unchanged by every `process_action` transition (valid or invalid
action) and by `post_blinds`; and after `_distribute_pot` over a non-empty
winner list drawn from the participants, `Σ chips` equals the conserved
quantity minus the dropped remainder `pot mod k`. -/
theorem pot_plus_chips_conserved (g : PokerGame) (p : Nat) (a : PlayerAction)
    (amt : Int) (winners : List Nat)
    (hnd : g.player_ids.Nodup)
    (hsub : ∀ x ∈ g.active_players, x ∈ g.player_ids) :
    potChips (process_action g p a amt) = potChips g ∧
    potChips (post_blinds g) = potChips g ∧
    (winners ≠ [] → (∀ x ∈ winners, x ∈ g.player_ids) →
      sumChips (distribute_pot g winners) =
        potChips g - Int.fmod g.pot winners.length) :=
  ⟨potChips_process_action g p a amt hnd hsub,
   potChips_post_blinds g hnd hsub,
   fun hne hw => distribute_sumChips g winners hnd hne hw⟩

/-- Witness for the amended C1 at the concrete table: a CALL preserves
`pot + Σ chips`, and distributing a pot of 100 to three winners leaves
`Σ chips` one chip short of the conserved quantity. -/
theorem pot_plus_chips_conserved_witness :
    potChips (process_action exBlind 0 PlayerAction.CALL 0) = potChips exBlind ∧
    sumChips (distribute_pot exPot100 [0, 1, 2]) =
      potChips exPot100 - Int.fmod exPot100.pot (([0, 1, 2] : List Nat).length) := by
  refine ⟨(pot_plus_chips_conserved exBlind 0 PlayerAction.CALL 0 []
    (by decide) (by decide)).1, ?_⟩
  exact (pot_plus_chips_conserved exPot100 0 PlayerAction.CALL 0 [0, 1, 2]
    (by decide) (by decide)).2.2 (by decide) (by decide)

/-- C2: no negative stacks.  Along any sequence of hand steps (reset, blind
posting, round starts, arbitrary — valid or invalid — actions, turn
advances) every participant's chips stay non-negative, and a final pot
distribution from a non-negative pot keeps them non-negative. -/
theorem no_negative_stacks (s s' : PokerGame)
    (h : Relation.ReflTransGen HandStep s s')
    (h0 : ∀ q, 0 ≤ s.player_chips q) :
    (∀ q, 0 ≤ s'.player_chips q) ∧
    (∀ winners : List Nat, 0 ≤ s'.pot →
      ∀ q, 0 ≤ (distribute_pot s' winners).player_chips q) := by
  have hmain : ∀ q, 0 ≤ s'.player_chips q := by
    induction h with
    | refl => exact h0
    | tail hr hstep ih => exact chips_nonneg_step _ _ hstep ih
  exact ⟨hmain, fun winners hpot => chips_nonneg_distribute s' winners hmain hpot⟩

/-- Witness for C2: the three-player table after reset and blinds. -/
theorem no_negative_stacks_witness :
    0 ≤ (post_blinds (reset_hand exInit)).player_chips 1 ∧
    0 ≤ (distribute_pot (post_blinds (reset_hand exInit)) [0, 1]).player_chips 0 := by
  have h := no_negative_stacks exInit (post_blinds (reset_hand exInit))
    (Relation.ReflTransGen.tail
      (Relation.ReflTransGen.tail Relation.ReflTransGen.refl (HandStep.reset exInit))
      (HandStep.blinds (reset_hand exInit)))
    (fun q => by show (0 : Int) ≤ 1000; decide)
  exact ⟨h.1 1, h.2 [0, 1] (by decide) 0⟩

/-- C3 (code bug evidence): in a state reached by real play on the
three-player table — P1 folds, P0 calls — `is_betting_round_complete`
answers `true` although the big blind P2 is active with chips and has never
acted since the last bet increase.  The cardinality test
`len(players_acted) < len(active_players)` is satisfied because the folded
P1 still inflates `players_acted`, contradicting the source's own comment
that all players have had a chance to act. -/
theorem round_completes_without_big_blind_acting :
    is_betting_round_complete exC3b = true ∧
    1 < exC3b.active_players.length ∧
    2 ∈ exC3b.active_players ∧
    0 < exC3b.player_chips 2 ∧
    2 ∉ exC3b.players_acted ∧
    exC3b.player_bets 2 = exC3b.current_bet := by
  decide

/-- Counterexample to claim C4 as stated: a RAISE that collapses into an
all-in and increases `current_bet` (here 20 to 40) does NOT clear the
acted-set; the earlier actor P0 is still in it afterwards. -/
theorem collapsed_raise_keeps_acted_set :
    is_valid_action exRaiseSt 1 PlayerAction.RAISE 40 = true ∧
    exRaiseSt.current_bet = 20 ∧
    (process_action exRaiseSt 1 PlayerAction.RAISE 40).current_bet = 40 ∧
    (process_action exRaiseSt 1 PlayerAction.RAISE 40).player_chips 1 = 0 ∧
    0 ∈ (process_action exRaiseSt 1 PlayerAction.RAISE 40).players_acted ∧
    (process_action exRaiseSt 1 PlayerAction.RAISE 40).players_acted ≠ {1} := by
  decide

/-- C4 (amended): a valid non-collapsing RAISE clears and reseeds the
acted-set to the raiser alone, and so does a valid ALL_IN whose resulting
bet exceeds `current_bet`; but a valid RAISE that collapses into an all-in
(chips at most the incremental amount) never clears the acted-set — the
actor is merely inserted into it — even though such a collapse raises
`current_bet` whenever the all-in total exceeds it. -/
theorem acted_set_reseeding (g : PokerGame) (p : Nat) (amt : Int) :
    (is_valid_action g p PlayerAction.RAISE amt = true →
      amt - g.player_bets p < g.player_chips p →
      (process_action g p PlayerAction.RAISE amt).players_acted = {p}) ∧
    (is_valid_action g p PlayerAction.RAISE amt = true →
      g.player_chips p ≤ amt - g.player_bets p →
      (process_action g p PlayerAction.RAISE amt).players_acted =
        insert p g.players_acted) ∧
    (is_valid_action g p PlayerAction.ALL_IN 0 = true →
      g.current_bet < g.player_bets p + g.player_chips p →
      (process_action g p PlayerAction.ALL_IN 0).players_acted = {p}) := by
  refine ⟨?_, ?_, ?_⟩
  · intro hv hlt
    unfold process_action
    rw [if_pos hv]
    simp only [apply_action]
    rw [if_neg (not_le.mpr hlt)]
  · intro hv hle
    unfold process_action
    rw [if_pos hv]
    simp only [apply_action]
    rw [if_pos hle]
  · intro hv hlt
    unfold process_action
    rw [if_pos hv]
    simp only [apply_action]
    rw [if_pos hlt]

/-- Witness for the amended C4: a plain raise reseeds to the raiser; the
collapsed raise on `exRaiseSt` only inserts P1; a covering all-in reseeds. -/
theorem acted_set_reseeding_witness :
    (process_action exRound 1 PlayerAction.RAISE 40).players_acted = {1} ∧
    (process_action exRaiseSt 1 PlayerAction.RAISE 40).players_acted =
      insert 1 exRaiseSt.players_acted ∧
    (process_action exRound 1 PlayerAction.ALL_IN 0).players_acted = {1} :=
  ⟨(acted_set_reseeding exRound 1 40).1 (by decide) (by decide),
   (acted_set_reseeding exRaiseSt 1 40).2.1 (by decide) (by decide),
   (acted_set_reseeding exRound 1 0).2.2 (by decide) (by decide)⟩

/-- C5: illegal-action coercion.  Whenever the requested action fails
`is_valid_action`, `process_action` applies FOLD with amount 0: the actor
is recorded as acted, appended to `folded_players` and erased from
`active_players`, while the pot, every stack and every `bet_this_round`
are untouched (the resulting state is the fold-update of the input state,
so zero chip movement); the function is total, so no error reaches the
caller. -/
theorem invalid_action_coerced_to_fold (g : PokerGame) (p : Nat)
    (a : PlayerAction) (amt : Int)
    (h : is_valid_action g p a amt = false) :
    process_action g p a amt =
      { g with
        players_acted := insert p g.players_acted
        folded_players := g.folded_players ++ [p]
        active_players := g.active_players.erase p } := by
  unfold process_action
  rw [if_neg (by simp [h])]
  rfl

/-- Witness for C5: on the post-blind table, P0 requesting CHECK with 20 to
call is invalid and is processed as a fold. -/
theorem invalid_action_coerced_to_fold_witness :
    is_valid_action exBlind 0 PlayerAction.CHECK 0 = false ∧
    process_action exBlind 0 PlayerAction.CHECK 0 =
      { exBlind with
        players_acted := insert 0 exBlind.players_acted
        folded_players := exBlind.folded_players ++ [0]
        active_players := exBlind.active_players.erase 0 } :=
  ⟨by decide, invalid_action_coerced_to_fold exBlind 0 PlayerAction.CHECK 0 (by decide)⟩

/-- Counterexample to claim C6 as stated: on the preflop table the
designated current player is P1, yet the engine's `is_valid_action` — the
validation `process_action` consults — accepts a CALL submitted by the
active non-current participant P0, and processing it moves chips into the
pot and does not fold P0. -/
theorem engine_accepts_non_current_player :
    get_current_player exRound = some 1 ∧
    0 ∈ exRound.active_players ∧
    is_valid_action exRound 0 PlayerAction.CALL 0 = true ∧
    exRound.pot = 30 ∧
    (process_action exRound 0 PlayerAction.CALL 0).pot = 50 ∧
    0 ∉ (process_action exRound 0 PlayerAction.CALL 0).folded_players := by
  decide

/-- C6 (amended): the engine's validation gate checks only membership — a
non-active or folded actor always fails it (and is thus coerced to FOLD by
`process_action`), and its verdict is entirely independent of the turn
cursor, so an active non-current participant is NOT rejected.  The
current-player requirement lives only in the bot-API helper
`validate_action`, which indeed accepts only the designated current
player and which the engine's `process_action` never consults. -/
theorem validation_membership_only (g : PokerGame) (p : Nat) (a : PlayerAction)
    (amt : Int) :
    ((p ∉ g.active_players ∨ p ∈ g.folded_players) →
      is_valid_action g p a amt = false) ∧
    (∀ i, is_valid_action { g with current_player_index := i } p a amt =
      is_valid_action g p a amt) ∧
    (validate_action g a amt p = true → get_current_player g = some p) := by
  refine ⟨?_, ?_, ?_⟩
  · intro hc
    unfold is_valid_action
    rw [if_pos hc]
  · intro i
    rfl
  · intro h
    unfold validate_action at h
    by_cases h1 : p ∉ g.active_players
    · rw [if_pos h1] at h
      exact absurd h Bool.false_ne_true
    · rw [if_neg h1] at h
      by_cases h2 : get_current_player g ≠ some p
      · rw [if_pos h2] at h
        exact absurd h Bool.false_ne_true
      · exact not_not.mp h2

/-- Witness for the amended C6: a stranger P5 fails the engine gate, and on
the preflop table `validate_action` accepting P1's call certifies that P1
is the current player. -/
theorem validation_membership_only_witness :
    is_valid_action exRound 5 PlayerAction.FOLD 0 = false ∧
    get_current_player exRound = some 1 :=
  ⟨(validation_membership_only exRound 5 PlayerAction.FOLD 0).1 (Or.inl (by decide)),
   (validation_membership_only exRound 1 PlayerAction.CALL 0).2.2 (by decide)⟩

/-- Counterexample to claim C7 as stated: after the blinds the engine's
turn cursor designates P1 (the small blind, seat after the dealer) as
first to act, not the dealer P0, so preflop action cannot proceed in the
order P0, P1, P2. -/
theorem first_to_act_is_small_blind_not_dealer :
    exRound.player_bets 1 = 10 ∧
    exRound.player_bets 2 = 20 ∧
    exRound.current_bet = 20 ∧
    exRound.pot = 30 ∧
    get_current_player exRound = some 1 ∧
    get_current_player exRound ≠ some 0 := by
  decide

/-- C7 (amended): the three-player limp scenario in the engine's actual
order.  After blinds (P1 posts 10, P2 posts 20, pot 30, current_bet 20),
P1 acts first and calls 10 more (pot 40, round not complete), P2 checks
(pot 40, not complete), then P0 calls 20 (pot 60), after which the round
is complete with every `bet_this_round` equal to 20. -/
theorem three_player_limp_trace :
    get_current_player exRound = some 1 ∧
    exC7a.pot = 40 ∧
    is_betting_round_complete exC7a = false ∧
    get_current_player exC7a = some 2 ∧
    exC7b.pot = 40 ∧
    is_betting_round_complete exC7b = false ∧
    get_current_player exC7b = some 0 ∧
    exC7c.pot = 60 ∧
    is_betting_round_complete exC7c = true ∧
    exC7c.player_bets 0 = 20 ∧
    exC7c.player_bets 1 = 20 ∧
    exC7c.player_bets 2 = 20 ∧
    exC7c.current_bet = 20 := by
  decide

/-- C8: blind posting.  With fewer than 2 active participants `post_blinds`
is the identity.  `reset_hand` starts `current_bet` at the configured big
blind.  With at least 2 active participants (no duplicate seats), the small
and big blinds go to the two distinct active seats at positions
`dealer+1` and `dealer+2` modulo the active-list length; each posts
`min(blind, own chips)`, moved from chips into `bet_this_round` and the
pot, every other participant is untouched and `current_bet` is unchanged
by the posting itself. -/
theorem post_blinds_spec (g : PokerGame) :
    (g.active_players.length < 2 → post_blinds g = g) ∧
    (reset_hand g).current_bet = g.big_blind ∧
    (2 ≤ g.active_players.length → g.active_players.Nodup →
      ∀ sbp bbp,
        sbp = g.active_players.getD
          ((g.dealer_button + 1) % g.active_players.length) 0 →
        bbp = g.active_players.getD
          ((g.dealer_button + 2) % g.active_players.length) 0 →
        sbp ≠ bbp ∧
        (post_blinds g).player_bets sbp = min g.small_blind (g.player_chips sbp) ∧
        (post_blinds g).player_chips sbp =
          g.player_chips sbp - min g.small_blind (g.player_chips sbp) ∧
        (post_blinds g).player_bets bbp = min g.big_blind (g.player_chips bbp) ∧
        (post_blinds g).player_chips bbp =
          g.player_chips bbp - min g.big_blind (g.player_chips bbp) ∧
        (post_blinds g).pot = g.pot + min g.small_blind (g.player_chips sbp) +
          min g.big_blind (g.player_chips bbp) ∧
        (post_blinds g).current_bet = g.current_bet ∧
        (∀ q, q ≠ sbp → q ≠ bbp →
          (post_blinds g).player_chips q = g.player_chips q ∧
          (post_blinds g).player_bets q = g.player_bets q)) := by
  refine ⟨?_, rfl, ?_⟩
  · intro hlt
    unfold post_blinds
    rw [if_pos hlt]
  · intro hge hnd sbp bbp hs hb
    have hn : 0 < g.active_players.length := by omega
    have hi1 : (g.dealer_button + 1) % g.active_players.length <
        g.active_players.length := Nat.mod_lt _ hn
    have hi2 : (g.dealer_button + 2) % g.active_players.length <
        g.active_players.length := Nat.mod_lt _ hn
    have hne : sbp ≠ bbp := by
      rw [hs, hb]
      exact getD_ne_of_index_ne _ hnd _ _ hi1 hi2
        (mod_succ_ne (g.dealer_button + 1) _ hge)
    have hpb : post_blinds g =
        { g with
          player_bets := updFn (updFn g.player_bets sbp
            (min g.small_blind (g.player_chips sbp))) bbp
            (min g.big_blind ((updFn g.player_chips sbp
              (g.player_chips sbp - min g.small_blind (g.player_chips sbp))) bbp))
          player_chips := updFn (updFn g.player_chips sbp
            (g.player_chips sbp - min g.small_blind (g.player_chips sbp))) bbp
            ((updFn g.player_chips sbp
              (g.player_chips sbp - min g.small_blind (g.player_chips sbp))) bbp -
             min g.big_blind ((updFn g.player_chips sbp
              (g.player_chips sbp - min g.small_blind (g.player_chips sbp))) bbp))
          pot := g.pot + min g.small_blind (g.player_chips sbp) +
            min g.big_blind ((updFn g.player_chips sbp
              (g.player_chips sbp - min g.small_blind (g.player_chips sbp))) bbp) } := by
      unfold post_blinds
      rw [if_neg (by omega)]
      dsimp only
      rw [← hs, ← hb]
    have hchipsb : (updFn g.player_chips sbp
        (g.player_chips sbp - min g.small_blind (g.player_chips sbp))) bbp =
        g.player_chips bbp := updFn_other _ _ _ _ (Ne.symm hne)
    refine ⟨hne, ?_, ?_, ?_, ?_, ?_, ?_, ?_⟩
    · rw [hpb]
      show (updFn (updFn g.player_bets sbp _) bbp _) sbp = _
      rw [updFn_other _ _ _ _ hne, updFn_self]
    · rw [hpb]
      show (updFn (updFn g.player_chips sbp _) bbp _) sbp = _
      rw [updFn_other _ _ _ _ hne, updFn_self]
    · rw [hpb]
      show (updFn (updFn g.player_bets sbp _) bbp _) bbp = _
      rw [updFn_self, hchipsb]
    · rw [hpb]
      show (updFn (updFn g.player_chips sbp _) bbp _) bbp = _
      rw [updFn_self, hchipsb]
    · rw [hpb]
      show g.pot + _ + _ = _
      rw [hchipsb]
    · rw [hpb]
    · intro q hq1 hq2
      rw [hpb]
      constructor
      · show (updFn (updFn g.player_chips sbp _) bbp _) q = _
        rw [updFn_other _ _ _ _ hq2, updFn_other _ _ _ _ hq1]
      · show (updFn (updFn g.player_bets sbp _) bbp _) q = _
        rw [updFn_other _ _ _ _ hq2, updFn_other _ _ _ _ hq1]

/-- Witness for C8 on the concrete table: P1 and P2 are the blind seats,
posting 10 and 20; P0 is untouched and `current_bet` starts at 20. -/
theorem post_blinds_spec_witness :
    (post_blinds exInit).player_bets 1 = 10 ∧
    (post_blinds exInit).player_chips 2 = 980 ∧
    (post_blinds exInit).pot = 30 ∧
    (post_blinds exInit).player_bets 0 = 0 ∧
    (reset_hand exInit).current_bet = 20 ∧
    post_blinds { exInit with active_players := [0] } =
      { exInit with active_players := [0] } := by
  have h := (post_blinds_spec exInit).2.2 (by decide) (by decide) 1 2 rfl rfl
  refine ⟨?_, ?_, ?_, ?_, (post_blinds_spec exInit).2.1, ?_⟩
  · rw [h.2.1]; decide
  · rw [h.2.2.2.2.1]; decide
  · rw [h.2.2.2.2.2.1]; decide
  · exact (h.2.2.2.2.2.2.2 0 (by decide) (by decide)).2
  · exact (post_blinds_spec { exInit with active_players := [0] }).1 (by decide)

/-- C9: pot distribution.  For a non-empty duplicate-free winner list of
length k, every winner's stack grows by exactly `pot fdiv k`, every
non-winner's stack is unchanged, the pot is zeroed, and the total paid
out is `pot - pot fmod k`: the remainder is assigned to nobody. -/
theorem distribute_pot_spec (g : PokerGame) (winners : List Nat)
    (hne : winners ≠ []) (hnd : winners.Nodup) :
    (∀ w ∈ winners, (distribute_pot g winners).player_chips w =
      g.player_chips w + Int.fdiv g.pot winners.length) ∧
    (∀ q, q ∉ winners → (distribute_pot g winners).player_chips q =
      g.player_chips q) ∧
    (distribute_pot g winners).pot = 0 ∧
    (winners.map (distribute_pot g winners).player_chips).sum =
      (winners.map g.player_chips).sum + g.pot - Int.fmod g.pot winners.length := by
  have hie : ¬(winners.isEmpty = true) := by simpa using hne
  have hchips : ∀ q, (distribute_pot g winners).player_chips q =
      if q ∈ winners then g.player_chips q + Int.fdiv g.pot winners.length
      else g.player_chips q := by
    intro q
    unfold distribute_pot
    rw [if_neg hie]
    exact foldl_payout_eq _ winners hnd g.player_chips q
  refine ⟨?_, ?_, ?_, ?_⟩
  · intro w hw
    rw [hchips w, if_pos hw]
  · intro q hq
    rw [hchips q, if_neg hq]
  · unfold distribute_pot
    rw [if_neg hie]
  · have hmap : winners.map (distribute_pot g winners).player_chips =
        winners.map (fun w => g.player_chips w + Int.fdiv g.pot winners.length) := by
      apply List.map_congr_left
      intro w hw
      rw [hchips w, if_pos hw]
    rw [hmap, sum_map_add_const]
    have hdm := Int.fdiv_add_fmod g.pot (winners.length : Int)
    linarith

/-- Witness for C9, the spec's scenario: pot 100 split three ways pays 33
to each winner, zeroes the pot, and exactly 1 chip (the remainder) is
dropped. -/
theorem distribute_pot_spec_witness :
    (distribute_pot exPot100 [0, 1, 2]).player_chips 0 = 1033 ∧
    (distribute_pot exPot100 [0, 1, 2]).pot = 0 ∧
    Int.fmod exPot100.pot (([0, 1, 2] : List Nat).length) = 1 := by
  have h := distribute_pot_spec exPot100 [0, 1, 2] (by decide) (by decide)
  refine ⟨?_, h.2.2.1, by decide⟩
  have h0 := h.1 0 (by decide)
  rw [h0]
  decide

/-- C10 (implicit): from blind posting until just before pot distribution,
`pot + Σ chips` over the original participants is invariant under every
engine step — blind posting, round starts, every action and turn advance —
because each wagered amount moves from a stack into the pot at the instant
it is applied; `bet_this_round` is bookkeeping already counted inside the
pot. -/
theorem pot_absorbs_bets (s s' : PokerGame)
    (h : Relation.ReflTransGen BetStep s s')
    (hnd : s.player_ids.Nodup)
    (hsub : ∀ x ∈ s.active_players, x ∈ s.player_ids) :
    potChips s' = potChips s := by
  have hmain : potChips s' = potChips s ∧ s'.player_ids = s.player_ids ∧
      (∀ x ∈ s'.active_players, x ∈ s'.player_ids) := by
    induction h with
    | refl => exact ⟨rfl, rfl, hsub⟩
    | tail hr hstep ih =>
      obtain ⟨hc, hids, hs2⟩ := ih
      obtain ⟨hc2, hids2, hs3⟩ := betstep_potChips _ _ hstep (hids.symm ▸ hnd) hs2
      exact ⟨hc2.trans hc, hids2.trans hids, hs3⟩
  exact hmain.1

/-- Witness for C10: three engine steps on the concrete table — round
start, P1's call, turn advance — preserve `pot + Σ chips`. -/
theorem pot_absorbs_bets_witness : potChips exC7a = potChips exBlind := by
  refine pot_absorbs_bets exBlind exC7a ?_ (by decide) (by decide)
  exact Relation.ReflTransGen.tail
    (Relation.ReflTransGen.tail
      (Relation.ReflTransGen.tail Relation.ReflTransGen.refl
        (BetStep.startRound exBlind))
      (BetStep.act exRound 1 PlayerAction.CALL 0))
    (BetStep.advanceP (process_action exRound 1 PlayerAction.CALL 0))
